import Mathlib

/-!
# Verification of the musicviz detection pipeline

Shallow embedding of the note-detection core of `visualizer.js` (the
multi-frequency snapshot): spectral peak extraction with parabolic
refinement, harmonic filtering, temporal smoothing, frequency-to-note
mapping, MIDI name conversion, and chord detection with rate limiting.

Frequencies and averaged quantities are modelled as exact rationals;
the transcendental pitch formula `12 * log2(f / 440)` is modelled over
the reals.  JavaScript `Math.round` is `⌊x + 1/2⌋`, `Math.floor` on
integer division is `Int.fdiv`, and `%` on non-negative integers is
`Int.emod`.
-/

namespace MusicViz

/-- JavaScript `Math.round` on a rational: `⌊x + 1/2⌋`. -/
def jroundQ (q : ℚ) : ℤ := ⌊q + 1/2⌋

/-- JavaScript `Math.round` on a real: `⌊x + 1/2⌋`. -/
noncomputable def jroundR (x : ℝ) : ℤ := ⌊x + 1/2⌋

/-- `this.noteStrings` from the source: the twelve pitch-class names starting
at C (a single array literal there). -/
def noteStrings : List String :=
  ["C", "C#", "D", "D#", "E", "F"] ++ ["F#", "G", "G#", "A", "A#", "B"]

/-- The pitch formula `noteNum = 12 * (Math.log(frequency / 440) / Math.log(2))`
from `frequencyToNote`. -/
noncomputable def noteNumOf (frequency : ℚ) : ℝ :=
  12 * Real.logb 2 ((frequency : ℝ) / 440)

/-- The record returned by `frequencyToNote`. -/
structure NoteRec where
  name : String
  frequency : ℚ
  cents : ℤ
  octave : ℤ
  midiNote : ℤ

/-- `frequencyToNote(frequency)` from the source:
`noteNum = 12*log2(f/440)`, `noteNumRounded = Math.round(noteNum)`,
`midiNote = noteNumRounded + 69`, `cents = Math.round((noteNum - noteNumRounded)*100)`,
`octave = Math.floor(midiNote/12) - 1`, `name = noteStrings[midiNote % 12] + octave`.
(The name lookup matches the JavaScript for `midiNote ≥ 0`, the only region
where the JavaScript array access is defined.) -/
noncomputable def frequencyToNote (frequency : ℚ) : NoteRec :=
  { name := noteStrings.getD ((jroundR (noteNumOf frequency) + 69).emod 12).toNat ""
      ++ toString ((jroundR (noteNumOf frequency) + 69).fdiv 12 - 1)
    frequency := frequency
    cents := jroundR ((noteNumOf frequency - (jroundR (noteNumOf frequency) : ℝ)) * 100)
    octave := (jroundR (noteNumOf frequency) + 69).fdiv 12 - 1
    midiNote := jroundR (noteNumOf frequency) + 69 }

/-- Modelled from the spec: the Note Mapper's defensive rejection of
non-positive frequencies with an InvalidFrequency condition (spec §7).
This guard is absent from the source: `frequencyToNote` accepts every input. -/
noncomputable def frequencyToNoteChecked (frequency : ℚ) : Option NoteRec :=
  if 0 < frequency then some (frequencyToNote frequency) else none

/-- `midiToNoteName(midiNote)` from the source:
`noteStrings[midiNote % 12] + (Math.floor(midiNote / 12) - 1)`. -/
def midiToNoteName (midiNote : ℤ) : String :=
  noteStrings.getD (midiNote.emod 12).toNat "" ++ toString (midiNote.fdiv 12 - 1)

/-- Value of a non-empty digit string, as JavaScript `parseInt` computes it. -/
def digitsVal (cs : List Char) : ℕ :=
  cs.foldl (fun n c => n * 10 + (c.toNat - '0'.toNat)) 0

/-- Whether a character can start a note name: the regex class `[A-G]`. -/
def isNoteChar (c : Char) : Bool := 'A' ≤ c && c ≤ 'G'

/-- The regex match `/^([A-G]#?)(\d+)$/` of `noteToMidi`: returns the note part
and the parsed octave, or `none` when the string does not match. -/
def parseNoteOctave (s : String) : Option (String × ℕ) :=
  match s.toList with
  | [] => none
  | c :: rest =>
    if isNoteChar c then
      let split : String × List Char :=
        match rest with
        | '#' :: rest2 => (String.mk [c, '#'], rest2)
        | _ => (String.mk [c], rest)
      if split.2 ≠ [] ∧ split.2.all (fun d => d.isDigit) then
        some (split.1, digitsVal split.2)
      else none
    else none

/-- `noteToMidi(noteName)` from the source: parse `/^([A-G]#?)(\d+)$/`,
fall back to 60 on no match or unknown note name, otherwise
`(octave + 1) * 12 + noteIndex`. -/
def noteToMidi (s : String) : ℤ :=
  match parseNoteOctave s with
  | none => 60
  | some p =>
    let idx := noteStrings.indexOf p.1
    if idx = noteStrings.length then 60
    else ((p.2 : ℤ) + 1) * 12 + (idx : ℤ)

/-! ## Spectral peak extraction (`detectAllFrequencies`, first half) -/

/-- A spectral peak as pushed by `detectAllFrequencies`:
`{frequency, amplitude: value, index: i}`. -/
structure Peak where
  frequency : ℚ
  amplitude : ℕ
  index : ℕ
deriving DecidableEq

/-- Magnitude of bin `i`: `this.dataArray[i]` (0 outside the array, as the
loops of the source never read out of range). -/
def getMag (data : List ℕ) (i : ℕ) : ℕ := data.getD i 0

/-- The local-maximum test of `detectAllFrequencies`: bin `i` is kept only if
no `j ≠ i` with `i - W ≤ j ≤ i + W` has `dataArray[j] >= dataArray[i]`. -/
def isLocalMax (data : List ℕ) (i W : ℕ) : Bool :=
  (List.range (2 * W + 1)).all fun k =>
    let j := i - W + k
    j == i || getMag data j < getMag data i

/-- The peak-scan loop of `detectAllFrequencies`: indices
`minIndex + W ≤ i < maxIndexBound - W` with `dataArray[i] ≥ threshold` that
are strict local maxima over the `±W` window.  In the source
`threshold = 20` and `W = peakWindow = 5`. -/
def detectPeakIndices (data : List ℕ) (minIndex maxIndexBound threshold W : ℕ) :
    List ℕ :=
  (List.range (maxIndexBound - W)).filter fun i =>
    (minIndex + W ≤ i : Bool) && (threshold ≤ getMag data i : Bool)
      && isLocalMax data i W

/-- The parabolic-interpolation refinement of `detectAllFrequencies`:
`frequency = i * nyquist / len`, replaced by `(i + delta) * nyquist / len`
with `delta = 0.5 * (y3 - y1) / (2*y2 - y1 - y3)` when `0 < i < len - 1` and
the denominator is non-zero. -/
def refineFrequency (data : List ℕ) (i : ℕ) (nyquist : ℚ) (len : ℕ) : ℚ :=
  if 0 < i ∧ i < len - 1 then
    let y1 : ℚ := getMag data (i - 1)
    let y2 : ℚ := getMag data i
    let y3 : ℚ := getMag data (i + 1)
    if 2 * y2 - y1 - y3 ≠ 0 then
      (i + 1/2 * (y3 - y1) / (2 * y2 - y1 - y3)) * nyquist / len
    else (i : ℚ) * nyquist / len
  else (i : ℚ) * nyquist / len

/-- The argmax scan of the single-peak `detectPitch` of the first snapshot:
`maxValue`/`maxIdx` over bins `minIndex ≤ i < maxIndexBound`, keeping the
first index of the maximum (only a strictly greater value updates). -/
def peakArgmax (data : List ℕ) (minIndex maxIndexBound : ℕ) : ℕ × ℕ :=
  (List.range' minIndex (maxIndexBound - minIndex)).foldl
    (fun s i => if s.1 < getMag data i then (getMag data i, i) else s) (0, 0)

/-- `detectPitch()` of the FIRST snapshot: find the loudest bin, return 0
below the amplitude threshold 20, else refine with
`delta = 0.5 * (y3 - y1) / (2*y2 - y1 - y3)` and NO zero-denominator guard.
When the denominator is zero the JavaScript division yields ±Infinity (or
NaN when `y3 = y1`), which propagates to the returned frequency; the
embedding returns `none` for those non-finite results and `some` of the
exact rational value otherwise. -/
def detectPitch (data : List ℕ) (minIndex maxIndexBound : ℕ) (nyquist : ℚ)
    (len : ℕ) : Option ℚ :=
  let m := peakArgmax data minIndex maxIndexBound
  if m.1 < 20 then some 0
  else if 0 < m.2 ∧ m.2 < len - 1 then
    let y1 : ℚ := getMag data (m.2 - 1)
    let y2 : ℚ := getMag data m.2
    let y3 : ℚ := getMag data (m.2 + 1)
    if 2 * y2 - y1 - y3 = 0 then none
    else some ((m.2 + 1/2 * (y3 - y1) / (2 * y2 - y1 - y3)) * nyquist / len)
  else some ((m.2 : ℚ) * nyquist / len)

/-- Stable insertion for a descending sort by a rational measure: an element
is placed after every earlier element of equal measure, matching the stable
JavaScript `sort((a, b) => b.amplitude - a.amplitude)`. -/
def insertDescBy {α : Type} (amp : α → ℚ) (x : α) : List α → List α
  | [] => [x]
  | y :: ys => if amp y < amp x then x :: y :: ys else y :: insertDescBy amp x ys

/-- Stable descending sort by a rational measure. -/
def sortDescBy {α : Type} (amp : α → ℚ) (l : List α) : List α :=
  l.foldl (fun acc x => insertDescBy amp x acc) []

/-! ## Harmonic filter (`detectAllFrequencies`, second half) -/

/-- The harmonic test of `detectAllFrequencies`: `ratio = peak.freq / fund.freq`,
`nearestHarmonic = Math.round(ratio)`, harmonic iff `nearestHarmonic ≥ 2` and
`|ratio - nearestHarmonic| < 0.1`. -/
def isHarmonicOf (p f : Peak) : Bool :=
  let ratio := p.frequency / f.frequency
  let k := jroundQ ratio
  (2 ≤ k : Bool) && (|ratio - (k : ℚ)| < 1/10 : Bool)

/-- The fundamentals loop of `detectAllFrequencies`: walk the
amplitude-sorted peaks, drop each peak that is a harmonic of an
already-accepted fundamental, append the rest, stop once 5 fundamentals
are accepted. -/
def filterHarmonics : List Peak → List Peak → List Peak
  | [], fs => fs
  | p :: rest, fs =>
    let fs' := if fs.any (isHarmonicOf p) then fs else fs ++ [p]
    if 5 ≤ fs'.length then fs' else filterHarmonics rest fs'

/-- `detectAllFrequencies()` assembled: Nyquist and bin bounds as in the
source (`minFreq = 80`, `maxFreq = 2000`, threshold 20, `peakWindow = 5`),
refined peaks sorted by amplitude, then harmonic filtering. -/
def detectAllFrequencies (data : List ℕ) (sampleRate : ℚ) : List Peak :=
  let len := data.length
  let nyquist := sampleRate / 2
  let minIndex := (⌊(80 : ℚ) / nyquist * len⌋).toNat
  let maxIndexBound := (⌊(2000 : ℚ) / nyquist * len⌋).toNat
  let peaks := (detectPeakIndices data minIndex maxIndexBound 20 5).map fun i =>
    { frequency := refineFrequency data i nyquist len
      amplitude := getMag data i
      index := i }
  filterHarmonics (sortDescBy (fun p => (p.amplitude : ℚ)) peaks) []

/-! ## Temporal smoother (`smoothFrequencies`) -/

/-- A smoothed note as produced by `smoothFrequencies`. -/
structure SmoothedNote where
  frequency : ℚ
  amplitude : ℚ
  confidence : ℚ
deriving DecidableEq

/-- The grouping key of `smoothFrequencies`:
`Math.round(12 * (Math.log(peak.frequency / 440) / Math.log(2)))`. -/
noncomputable def noteKey (f : ℚ) : ℤ := jroundR (noteNumOf f)

/-- One insertion into the `frequencyMap` of `smoothFrequencies`; a JavaScript
`Map` iterates in key-insertion order, so the map is an association list. -/
noncomputable def insertGrouped (acc : List (ℤ × List Peak)) (p : Peak) :
    List (ℤ × List Peak) :=
  let k := noteKey p.frequency
  if acc.any (fun e => e.1 == k) then
    acc.map (fun e => if e.1 == k then (e.1, e.2 ++ [p]) else e)
  else acc ++ [(k, [p])]

/-- The `frequencyMap` of `smoothFrequencies`: every peak of every buffered
frame, grouped by nearest MIDI note. -/
noncomputable def groupByNote (buffer : List (List Peak)) : List (ℤ × List Peak) :=
  buffer.foldl (fun acc frame => frame.foldl insertGrouped acc) []

/-- `smoothFrequencies()` from the source: group the buffered peaks by
nearest note, average frequency and amplitude per group, set
`confidence = peaks.length / smoothingBufferSize`, sort by amplitude.
`S` is `this.smoothingBufferSize` (5 in the source). -/
noncomputable def smoothFrequencies (buffer : List (List Peak)) (S : ℕ) :
    List SmoothedNote :=
  if buffer.isEmpty then [] else
  let smoothed := (groupByNote buffer).map fun g =>
    { frequency := (g.2.map Peak.frequency).sum / (g.2.length : ℚ)
      amplitude := (g.2.map fun p => (p.amplitude : ℚ)).sum / (g.2.length : ℚ)
      confidence := (g.2.length : ℚ) / (S : ℚ) }
  sortDescBy SmoothedNote.amplitude smoothed

/-! ## Chord detection (`detectChord` / `identifyChord`) -/

/-- The note data `detectChord` uses: display name and MIDI number. -/
structure ChordNote where
  name : String
  midiNote : ℤ
deriving DecidableEq

/-- Stable insertion for the ascending MIDI sort of `detectChord`
(`sort((a, b) => a.midiNote - b.midiNote)`). -/
def insertAscMidi (x : ChordNote) : List ChordNote → List ChordNote
  | [] => [x]
  | y :: ys => if x.midiNote < y.midiNote then x :: y :: ys else y :: insertAscMidi x ys

/-- Stable ascending sort by MIDI number. -/
def sortAscMidi (l : List ChordNote) : List ChordNote :=
  l.foldl (fun acc x => insertAscMidi x acc) []

/-- Drop a maximal run of digits. -/
def dropWhileDigits : List Char → List Char
  | [] => []
  | c :: rest => if c.isDigit then dropWhileDigits rest else c :: rest

/-- Remove the first maximal run of digits, as `name.replace(/\d+/, '')` does. -/
def removeFirstDigitRun : List Char → List Char
  | [] => []
  | c :: rest =>
    if c.isDigit then dropWhileDigits rest else c :: removeFirstDigitRun rest

/-- `n.name.replace(/\d+/, '')` from `detectChord`: strip the octave digits. -/
def stripOctave (s : String) : String := String.mk (removeFirstDigitRun s.toList)

/-- `identifyChord(root, intervals, noteNames)` from the source: match the
comma-joined interval string against the fixed chord table, else the generic
label. -/
def identifyChord (root : String) (intervals : List ℤ) (noteNames : List String) :
    String :=
  let s := String.intercalate "," (intervals.map toString)
  if s = "4,7" then root ++ " Major"
  else if s = "4,7,11" then root ++ " Major 7"
  else if s = "4,7,10" then root ++ " Dominant 7"
  else if s = "3,7" then root ++ " Minor"
  else if s = "3,7,10" then root ++ " Minor 7"
  else if s = "3,7,11" then root ++ " Minor Major 7"
  else if s = "3,6" then root ++ " Diminished"
  else if s = "3,6,9" then root ++ " Diminished 7"
  else if s = "4,8" then root ++ " Augmented"
  else if s = "2,7" then root ++ " Sus2"
  else if s = "5,7" then root ++ " Sus4"
  else if s = "4,7,10,2" then root ++ " 9"
  else if s = "3,7,10,2" then root ++ " Minor 9"
  else if s = "7" then root ++ "5 (Power)"
  else root ++ " Chord (" ++ String.intercalate " " noteNames ++ ")"

/-- The chord-name computation of `detectChord`: sort ascending by MIDI,
take intervals `(midi_i - midi_0) % 12` above the root, and call
`identifyChord` with the root's full display name. -/
def chordNameOf (notes : List ChordNote) : String :=
  match sortAscMidi notes with
  | [] => ""
  | root :: rest =>
    identifyChord root.name
      (rest.map fun nt => (nt.midiNote - root.midiNote).emod 12)
      ((root :: rest).map fun nt => stripOctave nt.name)

/-- An entry of `this.detectedChords` (timestamps kept in milliseconds of the
ambient clock rather than the display-relative seconds of the UI). -/
structure ChordEvent where
  name : String
  notes : List String
  timestamp : ℕ
deriving DecidableEq

/-- The chord-detection state: `this.lastChordTime` and `this.detectedChords`. -/
structure ChordState where
  lastChordTime : ℕ
  detectedChords : List ChordEvent
deriving DecidableEq

/-- The duplicate check of `detectChord`:
`!lastChord || lastChord.name !== chordName`. -/
def chordPush (s : ChordState) (chordName : String) : Bool :=
  match s.detectedChords.getLast? with
  | none => true
  | some last => last.name != chordName

/-- `detectChord(notes)` from the source: return unless 500ms have passed
since `lastChordTime`; compute the chord name; if truthy, update
`lastChordTime` and append a ChordEvent unless its name equals the last
emitted one. -/
def detectChordStep (s : ChordState) (now : ℕ) (notes : List ChordNote) :
    ChordState :=
  if now - s.lastChordTime < 500 then s
  else if chordNameOf notes ≠ "" then
    if chordPush s (chordNameOf notes) then
      { lastChordTime := now
        detectedChords := s.detectedChords ++
          [{ name := chordNameOf notes
             notes := (sortAscMidi notes).map ChordNote.name
             timestamp := now }] }
    else { s with lastChordTime := now }
  else s

/-- Whether the last emitted chord event is no later than `lastChordTime`. -/
def lastEmitOk (s : ChordState) : Bool :=
  match s.detectedChords.getLast? with
  | none => true
  | some e => e.timestamp ≤ s.lastChordTime

/-- Invariant used for the rate-limit property: consecutive emitted chord
events are at least 500ms apart, and the last emission is no later than
`lastChordTime`. -/
def chordInv (s : ChordState) : Prop :=
  List.Chain' (fun a b => a.timestamp + 500 ≤ b.timestamp) s.detectedChords
  ∧ lastEmitOk s = true

/-! ## Confirmation/Debounce engine (modelled from the spec) -/

/-- Modelled from the spec: the per-midiNote debounce state of the
Confirmation/Debounce Engine (spec §3 NoteBufferEntry, §4.5); this component
is absent from the included source snapshots. -/
structure NoteBufferEntry where
  startTime : ℕ
  lastSeenTime : ℕ
  confirmed : Bool
deriving DecidableEq

/-- The debounce table, keyed by midiNote. -/
abbrev NoteTable := List (ℕ × NoteBufferEntry)

/-- Look a midiNote up in the debounce table. -/
def lookupNote (tbl : NoteTable) (n : ℕ) : Option NoteBufferEntry :=
  (tbl.find? (fun e => e.1 == n)).map Prod.snd

/-- Modelled from the spec: re-observation of a known note (spec §4.5):
update `lastSeenTime`; promote pending to confirmed when
`now - startTime ≥ minNoteDuration`. -/
def touchEntry (minD now : ℕ) (e : NoteBufferEntry) : NoteBufferEntry :=
  let e1 : NoteBufferEntry := { e with lastSeenTime := now }
  if e1.confirmed then e1
  else if minD ≤ now - e1.startTime then { e1 with confirmed := true } else e1

/-- Modelled from the spec: observation of one midiNote this tick
(spec §4.5 absent→pending with `startTime = lastSeenTime = now`, and the
pending/confirmed updates of a reappearing note). -/
def observeNote (minD now : ℕ) (tbl : NoteTable) (n : ℕ) : NoteTable :=
  if (lookupNote tbl n).isSome then
    tbl.map fun e => if e.1 == n then (e.1, touchEntry minD now e.2) else e
  else
    tbl ++ [(n, touchEntry minD now { startTime := now, lastSeenTime := now, confirmed := false })]

/-- Modelled from the spec: one tick of the Confirmation/Debounce Engine
(spec §4.5): apply all observations, delete entries silent for more than
`silenceTimeout`, and report the intersection of confirmed and observed
midiNotes. -/
def debounceTick (minD silD now : ℕ) (tbl : NoteTable) (observed : List ℕ) :
    NoteTable × List ℕ :=
  let tbl1 := observed.foldl (observeNote minD now) tbl
  let tbl2 := tbl1.filter fun e => !(silD < now - e.2.lastSeenTime)
  (tbl2, observed.filter fun n =>
    ((lookupNote tbl2 n).map NoteBufferEntry.confirmed).getD false)

/-- Modelled from the spec: the engine run over a sequence of ticks, each a
pair of wall-clock time and the midiNotes observed that tick; returns the
final table and the per-tick confirmed output. -/
def runDebounce (minD silD : ℕ) :
    NoteTable → List (ℕ × List ℕ) → NoteTable × List (List ℕ)
  | tbl, [] => (tbl, [])
  | tbl, (t, obs) :: rest =>
    let r := debounceTick minD silD t tbl obs
    let rr := runDebounce minD silD r.1 rest
    (rr.1, r.2 :: rr.2)

/-! ## Helper lemmas -/

lemma debounceTick_single (minD silD now s l n : ℕ) (c : Bool) :
    debounceTick minD silD now [(n, ⟨s, l, c⟩)] [n]
      = ([(n, ⟨s, now, c || decide (minD ≤ now - s)⟩)],
         if (c || decide (minD ≤ now - s)) = true then [n] else []) := by
  cases c <;> by_cases h : minD ≤ now - s <;>
    simp [debounceTick, observeNote, lookupNote, touchEntry, h]

lemma debounceTick_fresh (minD silD t0 n : ℕ) :
    debounceTick minD silD t0 [] [n]
      = ([(n, ⟨t0, t0, decide (minD ≤ 0)⟩)],
         if (decide (minD ≤ 0) : Bool) = true then [n] else []) := by
  by_cases h : minD ≤ 0 <;>
    simp [debounceTick, observeNote, lookupNote, touchEntry, Nat.sub_self, h]

lemma runDebounce_single (minD silD n s : ℕ) :
    ∀ (ts : List ℕ) (l : ℕ) (b : Bool),
      List.Sorted (· ≤ ·) (l :: ts) →
      runDebounce minD silD [(n, ⟨s, l, b || decide (minD ≤ l - s)⟩)]
          (ts.map fun t => (t, [n]))
        = ([(n, ⟨s, ts.getLastD l, b || decide (minD ≤ ts.getLastD l - s)⟩)],
           ts.map fun t => if (b || decide (minD ≤ t - s)) = true then [n] else [])
  | [], l, b, _ => by simp [runDebounce]
  | t :: ts', l, b, hsort => by
    have hlt : l ≤ t := (List.sorted_cons.mp hsort).1 t (by simp)
    have habs : ((b || decide (minD ≤ l - s)) || decide (minD ≤ t - s))
        = (b || decide (minD ≤ t - s)) := by
      by_cases h : minD ≤ l - s
      · have h2 : minD ≤ t - s := le_trans h (Nat.sub_le_sub_right hlt s)
        simp [h, h2]
      · simp [h]
    have htail : List.Sorted (· ≤ ·) (t :: ts') := (List.sorted_cons.mp hsort).2
    simp only [List.map_cons, runDebounce, debounceTick_single]
    rw [habs]
    rw [runDebounce_single minD silD n s ts' t b htail]
    cases ts' with
    | nil => simp
    | cons x xs =>
      obtain ⟨y, hy⟩ := Option.isSome_iff_exists.mp
        (List.getLast?_isSome.mpr (List.cons_ne_nil x xs))
      simp [hy]

lemma detectChordStep_length (s : ChordState) (now : ℕ) (notes : List ChordNote) :
    (detectChordStep s now notes).detectedChords.length
      ≤ s.detectedChords.length + 1 := by
  unfold detectChordStep
  split
  · simp
  split
  · split <;> simp
  · simp

lemma detectChordStep_gate (s : ChordState) (now : ℕ) (notes : List ChordNote)
    (h : now - s.lastChordTime < 500) : detectChordStep s now notes = s := by
  unfold detectChordStep
  simp [h]

lemma detectChordStep_time (s : ChordState) (now : ℕ) (notes : List ChordNote)
    (h1 : ¬ now - s.lastChordTime < 500) (h2 : chordNameOf notes ≠ "") :
    (detectChordStep s now notes).lastChordTime = now := by
  unfold detectChordStep
  rw [if_neg h1, if_pos h2]
  split <;> rfl

lemma mem_filterHarmonics_of_mem :
    ∀ (peaks fs : List Peak) (f : Peak), f ∈ fs → f ∈ filterHarmonics peaks fs
  | [], _, _, hf => hf
  | p :: rest, fs, f, hf => by
    show f ∈ (if 5 ≤ (if fs.any (isHarmonicOf p) then fs else fs ++ [p]).length
        then (if fs.any (isHarmonicOf p) then fs else fs ++ [p])
        else filterHarmonics rest (if fs.any (isHarmonicOf p) then fs else fs ++ [p]))
    by_cases hH : fs.any (isHarmonicOf p) = true
    · simp only [if_pos hH]
      split
      · exact hf
      · exact mem_filterHarmonics_of_mem rest fs f hf
    · simp only [if_neg hH]
      have hmem : f ∈ fs ++ [p] := List.mem_append_left _ hf
      split
      · exact hmem
      · exact mem_filterHarmonics_of_mem rest (fs ++ [p]) f hmem

lemma length_insertDescBy {α : Type} (amp : α → ℚ) (x : α) :
    ∀ l : List α, (insertDescBy amp x l).length = l.length + 1
  | [] => rfl
  | y :: ys => by
    unfold insertDescBy
    split
    · simp
    · simp [length_insertDescBy amp x ys]

lemma length_sortDescBy {α : Type} (amp : α → ℚ) (l : List α) :
    (sortDescBy amp l).length = l.length := by
  suffices h : ∀ (l acc : List α),
      (l.foldl (fun acc x => insertDescBy amp x acc) acc).length
        = acc.length + l.length by
    simpa using h l []
  intro l
  induction l with
  | nil => simp
  | cons x xs ih =>
    intro acc
    simp only [List.foldl_cons]
    rw [ih (insertDescBy amp x acc), length_insertDescBy]
    simp only [List.length_cons]
    omega

/-! ## Claim theorems -/

/-- Claim C1 (modelled from the spec, the Confirmation/Debounce Engine being
absent from the included snapshots): a midiNote observed at every tick of a
chronological tick sequence appears in the confirmed per-tick output exactly
at the ticks where the time since its first observation has reached
`minNoteDuration`, and never before; after a final silence gap exceeding
`silenceTimeout` the note is deleted from the engine and produces no
output. -/
theorem debounce_minDuration_silenceTimeout
    (minD silD n t0 tEnd : ℕ) (ts : List ℕ)
    (hsort : List.Sorted (· ≤ ·) (t0 :: ts))
    (hEnd : silD < tEnd - ts.getLastD t0) :
    (runDebounce minD silD [] ((t0 :: ts).map fun t => (t, [n]))).2
      = (t0 :: ts).map (fun t => if minD ≤ t - t0 then [n] else [])
    ∧ debounceTick minD silD tEnd
        (runDebounce minD silD [] ((t0 :: ts).map fun t => (t, [n]))).1 []
      = ([], []) := by
  have hb : (decide (minD ≤ 0) : Bool) = (false || decide (minD ≤ t0 - t0)) := by
    simp [Nat.sub_self]
  have hrun : runDebounce minD silD [] ((t0 :: ts).map fun t => (t, [n]))
      = ([(n, ⟨t0, ts.getLastD t0, false || decide (minD ≤ ts.getLastD t0 - t0)⟩)],
         (if (decide (minD ≤ 0) : Bool) = true then [n] else [])
           :: ts.map fun t =>
                if (false || decide (minD ≤ t - t0)) = true then [n] else []) := by
    simp only [List.map_cons, runDebounce, debounceTick_fresh, hb]
    rw [runDebounce_single minD silD n t0 ts t0 false hsort]
  refine ⟨?_, ?_⟩
  · rw [hrun]
    simp
  · rw [hrun]
    simp [debounceTick]
    rw [List.getLastD_eq_getLast?] at hEnd
    omega

/-- Witness for C1: with `minNoteDuration = 100`, `silenceTimeout = 300` and
note 60 observed at times 0, 60 and 120, the confirmed output is empty,
empty, then the note, and a silent tick at time 1000 deletes it. -/
theorem debounce_minDuration_silenceTimeout_witness :
    (runDebounce 100 300 [] (([0, 60, 120] : List ℕ).map fun t => (t, [60]))).2
      = ([0, 60, 120] : List ℕ).map (fun t => if 100 ≤ t - 0 then [60] else [])
    ∧ debounceTick 100 300 1000
        (runDebounce 100 300 [] (([0, 60, 120] : List ℕ).map fun t => (t, [60]))).1 []
      = ([], []) :=
  debounce_minDuration_silenceTimeout 100 300 60 0 1000 [60, 120]
    (by decide) (by decide)

/-- Counterexample to claim C2: with an accepted fundamental at 440 Hz and a
quieter candidate at 220 Hz, the inverse ratio 440/220 is 2 exactly — an
integer in [2,8], within any tolerance — so the claim demands that the
440 Hz fundamental be removed and replaced by the candidate; instead the
filter keeps the 440 Hz fundamental and merely appends the candidate. -/
theorem subharmonic_candidate_kept_cex :
    filterHarmonics [⟨440, 100, 82⟩, ⟨220, 50, 41⟩] []
      = [⟨440, 100, 82⟩, ⟨220, 50, 41⟩]
    ∧ jroundQ ((440 : ℚ) / 220) = 2
    ∧ |(440 : ℚ) / 220 - 2| < 1/5
    ∧ (⟨440, 100, 82⟩ : Peak) ∈ filterHarmonics [⟨440, 100, 82⟩, ⟨220, 50, 41⟩] [] := by
  have heq : filterHarmonics [⟨440, 100, 82⟩, ⟨220, 50, 41⟩] []
      = [⟨440, 100, 82⟩, ⟨220, 50, 41⟩] := by
    norm_num [filterHarmonics, isHarmonicOf, jroundQ]
  refine ⟨heq, by norm_num [jroundQ], by norm_num, ?_⟩
  rw [heq]
  simp

/-- Claim C2 amended: the harmonic filter has no inverse-ratio rule.  A
candidate whose frequency ratio against an accepted fundamental rounds
below 2 (in particular any sub-harmonic candidate) is never classified as a
harmonic; such an unmatched candidate is accepted as an additional
fundamental; and once a fundamental is accepted it is never removed,
whatever later candidates arrive — no replacement ever happens. -/
theorem harmonic_filter_never_removes_accepted :
    (∀ p f : Peak,
       jroundQ (p.frequency / f.frequency) < 2 → isHarmonicOf p f = false)
    ∧ (∀ (p : Peak) (rest fs : List Peak),
       fs.any (isHarmonicOf p) = false → p ∈ filterHarmonics (p :: rest) fs)
    ∧ (∀ (peaks fs : List Peak) (f : Peak),
       f ∈ fs → f ∈ filterHarmonics peaks fs) := by
  refine ⟨?_, ?_, ?_⟩
  · intro p f h
    have h2 : ¬ (2 ≤ jroundQ (p.frequency / f.frequency)) := by omega
    simp [isHarmonicOf, h2]
  · intro p rest fs hany
    show p ∈ (if 5 ≤ (if fs.any (isHarmonicOf p) then fs else fs ++ [p]).length
        then (if fs.any (isHarmonicOf p) then fs else fs ++ [p])
        else filterHarmonics rest (if fs.any (isHarmonicOf p) then fs else fs ++ [p]))
    have hne : ¬ (fs.any (isHarmonicOf p) = true) := by simp [hany]
    simp only [if_neg hne]
    have hp : p ∈ fs ++ [p] := by simp
    split
    · exact hp
    · exact mem_filterHarmonics_of_mem rest (fs ++ [p]) p hp
  · exact mem_filterHarmonics_of_mem

/-- Witness for the amended C2, at the counterexample's peaks: the 220 Hz
sub-harmonic candidate is not classified as a harmonic of the 440 Hz
fundamental, it is accepted alongside it, and the 440 Hz fundamental
survives its arrival. -/
theorem harmonic_filter_never_removes_accepted_witness :
    (jroundQ ((220 : ℚ) / 440) < 2
     ∧ isHarmonicOf ⟨220, 50, 41⟩ ⟨440, 100, 82⟩ = false)
    ∧ (([(⟨440, 100, 82⟩ : Peak)]).any (isHarmonicOf ⟨220, 50, 41⟩) = false
       ∧ (⟨220, 50, 41⟩ : Peak) ∈ filterHarmonics [⟨220, 50, 41⟩] [⟨440, 100, 82⟩])
    ∧ ((⟨440, 100, 82⟩ : Peak) ∈ ([⟨440, 100, 82⟩] : List Peak)
       ∧ (⟨440, 100, 82⟩ : Peak) ∈ filterHarmonics [⟨220, 50, 41⟩] [⟨440, 100, 82⟩]) := by
  have h1 : jroundQ ((220 : ℚ) / 440) < 2 := by norm_num [jroundQ]
  have h2 : ([(⟨440, 100, 82⟩ : Peak)]).any (isHarmonicOf ⟨220, 50, 41⟩) = false := by
    norm_num [isHarmonicOf, jroundQ]
  have h3 : (⟨440, 100, 82⟩ : Peak) ∈ ([⟨440, 100, 82⟩] : List Peak) := by simp
  exact ⟨⟨h1, harmonic_filter_never_removes_accepted.1 ⟨220, 50, 41⟩ ⟨440, 100, 82⟩ h1⟩,
         ⟨h2, harmonic_filter_never_removes_accepted.2.1 ⟨220, 50, 41⟩ [] [⟨440, 100, 82⟩] h2⟩,
         ⟨h3, harmonic_filter_never_removes_accepted.2.2 [⟨220, 50, 41⟩] [⟨440, 100, 82⟩]
            ⟨440, 100, 82⟩ h3⟩⟩

/-- Counterexample to claim C3: a buffer holding a single frame with a single
440 Hz peak yields an emitted smoothed note of confidence 1/5, which is
below the minimum confidence 0.5 — the smoother applies no confidence
filter. -/
theorem low_confidence_emitted_cex :
    smoothFrequencies [[⟨440, 100, 93⟩]] 5 = [⟨440, 100, 1/5⟩]
    ∧ (1/5 : ℚ) < 1/2 := by
  constructor
  · norm_num [smoothFrequencies, groupByNote, insertGrouped, sortDescBy,
      insertDescBy]
  · norm_num

/-- Claim C3 amended: the temporal smoother emits one SmoothedNote for every
note group of the buffer, regardless of its confidence; no
minimum-confidence filtering takes place. -/
theorem smoother_emits_every_group (buffer : List (List Peak)) (S : ℕ) :
    (smoothFrequencies buffer S).length = (groupByNote buffer).length := by
  unfold smoothFrequencies
  split
  · have hb : buffer = [] := by
      rename_i h
      simpa [List.isEmpty_iff] using h
    simp [hb, groupByNote]
  · rw [length_sortDescBy, List.length_map]

/-- Claim C4: for every positive frequency the Note Mapper's cents value
lies in [-50, 50], and mapping 440 Hz yields name "A4", cents 0 and
midiNote 69. -/
theorem noteMapper_cents_range_and_A4 :
    (∀ f : ℚ, 0 < f →
       -50 ≤ (frequencyToNote f).cents ∧ (frequencyToNote f).cents ≤ 50)
    ∧ (frequencyToNote 440).name = "A4"
    ∧ (frequencyToNote 440).cents = 0
    ∧ (frequencyToNote 440).midiNote = 69 := by
  have hx : noteNumOf 440 = 0 := by unfold noteNumOf; norm_num
  have hj : jroundR (noteNumOf 440) = 0 := by
    rw [hx]; unfold jroundR; norm_num
  refine ⟨?_, ?_, ?_, ?_⟩
  · intro f _
    have hc : (frequencyToNote f).cents
        = jroundR ((noteNumOf f - (jroundR (noteNumOf f) : ℝ)) * 100) := rfl
    rw [hc]
    set x := noteNumOf f
    have h1 : (⌊x + 1/2⌋ : ℝ) ≤ x + 1/2 := Int.floor_le _
    have h2 : x + 1/2 < ⌊x + 1/2⌋ + 1 := Int.lt_floor_add_one _
    unfold jroundR
    constructor
    · apply Int.le_floor.mpr
      push_cast
      linarith
    · have h3 : ⌊(x - (⌊x + 1/2⌋ : ℝ)) * 100 + 1/2⌋ < 51 := by
        apply Int.floor_lt.mpr
        push_cast
        linarith
      omega
  · show noteStrings.getD ((jroundR (noteNumOf 440) + 69).emod 12).toNat ""
        ++ toString ((jroundR (noteNumOf 440) + 69).fdiv 12 - 1) = "A4"
    rw [hj]
    decide
  · show jroundR ((noteNumOf 440 - (jroundR (noteNumOf 440) : ℝ)) * 100) = 0
    rw [hj, hx]
    unfold jroundR
    norm_num
  · show jroundR (noteNumOf 440) + 69 = 69
    rw [hj]
    norm_num

/-- Witness for C4: the cents bound instantiated at 440 Hz. -/
theorem noteMapper_cents_range_and_A4_witness :
    (0 : ℚ) < 440
    ∧ (-50 ≤ (frequencyToNote 440).cents ∧ (frequencyToNote 440).cents ≤ 50) :=
  ⟨by norm_num, noteMapper_cents_range_and_A4.1 440 (by norm_num)⟩

/-- Counterexample to claim C5: the source uses a half-window of 5
(`peakWindow`), not 7.  In a 20-bin spectrum with equal magnitudes 50 at
bins 8 and 14, bin 8 is accepted as a peak (bin 14 lies outside the ±5
window), although the claimed ±7 strict-maximum condition fails at bin 8. -/
theorem peak_window_seven_cex :
    (8 : ℕ) ∈ detectPeakIndices
        [0, 0, 0, 0, 0, 0, 0, 0, 50, 0, 0, 0, 0, 0, 50, 0, 0, 0, 0, 0] 0 20 20 5
    ∧ isLocalMax [0, 0, 0, 0, 0, 0, 0, 0, 50, 0, 0, 0, 0, 0, 50, 0, 0, 0, 0, 0] 8 7
      = false := by
  decide

/-- Claim C5 amended: with the source's threshold 20 and half-window 5, a
bin is accepted as a peak only if its magnitude is at least 20 and strictly
greater than every one of its 10 neighbors within ±5 (an equal neighbor
disqualifies it). -/
theorem peak_acceptance_conditions
    (data : List ℕ) (minIndex maxIndexBound i : ℕ)
    (h : i ∈ detectPeakIndices data minIndex maxIndexBound 20 5) :
    20 ≤ getMag data i ∧ isLocalMax data i 5 = true := by
  rw [detectPeakIndices, List.mem_filter] at h
  obtain ⟨-, hcond⟩ := h
  simp only [Bool.and_eq_true, decide_eq_true_eq] at hcond
  exact ⟨hcond.1.2, hcond.2⟩

/-- Witness for the amended C5: bin 8 of the counterexample spectrum meets
both acceptance conditions. -/
theorem peak_acceptance_conditions_witness :
    (8 : ℕ) ∈ detectPeakIndices
        [0, 0, 0, 0, 0, 0, 0, 0, 50, 0, 0, 0, 0, 0, 50, 0, 0, 0, 0, 0] 0 20 20 5
    ∧ (20 ≤ getMag [0, 0, 0, 0, 0, 0, 0, 0, 50, 0, 0, 0, 0, 0, 50, 0, 0, 0, 0, 0] 8
       ∧ isLocalMax [0, 0, 0, 0, 0, 0, 0, 0, 50, 0, 0, 0, 0, 0, 50, 0, 0, 0, 0, 0] 8 5
         = true) :=
  ⟨by decide, peak_acceptance_conditions
    [0, 0, 0, 0, 0, 0, 0, 0, 50, 0, 0, 0, 0, 0, 50, 0, 0, 0, 0, 0] 0 20 8
    (by decide)⟩

/-- The guarded refinement of the multi-frequency extractor: whenever the
parabolic-interpolation denominator `2*y2 - y1 - y3` is zero at a bin,
`refineFrequency` returns the unrefined bin-center frequency
`i * nyquist / len`.  (Supporting lemma; the first snapshot's unguarded
`detectPitch` behaves differently, see the claim theorem below.) -/
theorem zero_denominator_fallback
    (data : List ℕ) (i len : ℕ) (nyquist : ℚ)
    (h : 2 * (getMag data i : ℚ) - (getMag data (i - 1) : ℚ)
          - (getMag data (i + 1) : ℚ) = 0) :
    refineFrequency data i nyquist len = (i : ℚ) * nyquist / len := by
  unfold refineFrequency
  split
  · rw [if_neg (by simpa using h)]
  · rfl

/-- Instantiation of the guarded fallback: a flat three-bin frame has
denominator zero at bin 1 and falls back to the bin-center frequency. -/
theorem zero_denominator_fallback_witness :
    2 * (getMag [5, 5, 5] 1 : ℚ) - (getMag [5, 5, 5] 0 : ℚ)
        - (getMag [5, 5, 5] 2 : ℚ) = 0
    ∧ refineFrequency [5, 5, 5] 1 100 3 = ((1 : ℕ) : ℚ) * 100 / ((3 : ℕ) : ℚ) :=
  ⟨by norm_num [getMag], zero_denominator_fallback [5, 5, 5] 1 3 100
    (by norm_num [getMag])⟩

/-- Claim C6 (code bug): the claim's fallback holds for the multi-frequency
extractor (`refineFrequency` above), but the also-cited single-peak
`detectPitch` of the first snapshot has NO zero-denominator guard, and the
zero case is reachable at a detected peak: in the spectrum below the scan
over bins [2, 5) picks bin 4 (magnitude 100) as the loudest — bin 5, with
magnitude 150, lies outside the scanned range — the denominator
`2*100 - 50 - 150` is zero, and the unguarded division returns +Infinity,
a non-finite reported frequency (`none` in this embedding), where the claim
requires the bin-center frequency 2000 that `refineFrequency` does
produce. -/
theorem detectPitch_unguarded_zero_denominator :
    peakArgmax [0, 0, 10, 50, 100, 150, 0, 0] 2 5 = (100, 4)
    ∧ 2 * (getMag [0, 0, 10, 50, 100, 150, 0, 0] 4 : ℚ)
        - (getMag [0, 0, 10, 50, 100, 150, 0, 0] 3 : ℚ)
        - (getMag [0, 0, 10, 50, 100, 150, 0, 0] 5 : ℚ) = 0
    ∧ detectPitch [0, 0, 10, 50, 100, 150, 0, 0] 2 5 4000 8 = none
    ∧ refineFrequency [0, 0, 10, 50, 100, 150, 0, 0] 4 4000 8 = 2000 := by
  have hm : peakArgmax [0, 0, 10, 50, 100, 150, 0, 0] 2 5 = (100, 4) := by decide
  refine ⟨hm, by norm_num [getMag], ?_, by norm_num [refineFrequency, getMag]⟩
  unfold detectPitch
  rw [hm]
  norm_num [getMag]

/-- Counterexample to claim C7: the chord identifier is called with the
root's full display name including the octave, so C4-E4-G4 yields
"C4 Major", not "C Major". -/
theorem chord_root_name_cex :
    chordNameOf [⟨"C4", 60⟩, ⟨"E4", 64⟩, ⟨"G4", 67⟩] = "C4 Major"
    ∧ chordNameOf [⟨"C4", 60⟩, ⟨"E4", 64⟩, ⟨"G4", 67⟩] ≠ "C Major" := by
  decide

/-- Claim C7 amended: C4-E4-G4 is identified as "C4 Major" and A3-C4-E4 as
"A3 Minor" — the root's full name (with octave) plus the quality matched
from the ordered interval signature. -/
theorem chord_names_include_root_octave :
    chordNameOf [⟨"C4", 60⟩, ⟨"E4", 64⟩, ⟨"G4", 67⟩] = "C4 Major"
    ∧ chordNameOf [⟨"A3", 57⟩, ⟨"C4", 60⟩, ⟨"E4", 64⟩] = "A3 Minor" := by
  decide

/-- Counterexample to claim C8: after an emission at time 1000, two
chord-eligible ticks carrying identical notes at times 1300 and 1400
(100ms apart) emit zero ChordEvents, not exactly one: both fall inside the
rate-limit window of the earlier emission. -/
theorem chord_pair_zero_emission_cex :
    detectChordStep (detectChordStep (detectChordStep ⟨0, []⟩ 1000
        [⟨"C4", 60⟩, ⟨"E4", 64⟩, ⟨"G4", 67⟩]) 1300
        [⟨"A3", 57⟩, ⟨"C4", 60⟩, ⟨"E4", 64⟩]) 1400
        [⟨"A3", 57⟩, ⟨"C4", 60⟩, ⟨"E4", 64⟩]
      = detectChordStep ⟨0, []⟩ 1000 [⟨"C4", 60⟩, ⟨"E4", 64⟩, ⟨"G4", 67⟩]
    ∧ (detectChordStep ⟨0, []⟩ 1000
        [⟨"C4", 60⟩, ⟨"E4", 64⟩, ⟨"G4", 67⟩]).detectedChords.length = 1 := by
  decide

/-- Claim C8 amended: two ticks less than 500ms apart emit at most one
ChordEvent (never two), and the state invariant that successive emitted
ChordEvents are at least 500ms apart is preserved by every tick. -/
theorem chord_rate_limit_amended :
    (∀ (s : ChordState) (t1 t2 : ℕ) (ns1 ns2 : List ChordNote),
       t2 - t1 < 500 →
       (detectChordStep (detectChordStep s t1 ns1) t2 ns2).detectedChords.length
         ≤ s.detectedChords.length + 1)
    ∧ (∀ (s : ChordState) (now : ℕ) (ns : List ChordNote),
       chordInv s → chordInv (detectChordStep s now ns)) := by
  constructor
  · intro s t1 t2 ns1 ns2 h
    by_cases h1 : t1 - s.lastChordTime < 500
    · rw [detectChordStep_gate s t1 ns1 h1]
      exact detectChordStep_length s t2 ns2
    · by_cases h2 : chordNameOf ns1 = ""
      · have hs1 : detectChordStep s t1 ns1 = s := by
          unfold detectChordStep
          rw [if_neg h1]
          simp [h2]
        rw [hs1]
        exact detectChordStep_length s t2 ns2
      · have htime := detectChordStep_time s t1 ns1 h1 h2
        have hgate2 : t2 - (detectChordStep s t1 ns1).lastChordTime < 500 := by
          rw [htime]; exact h
        rw [detectChordStep_gate _ t2 ns2 hgate2]
        exact detectChordStep_length s t1 ns1
  · intro s now ns hInv
    obtain ⟨hchain, hlast⟩ := hInv
    by_cases h1 : now - s.lastChordTime < 500
    · rw [detectChordStep_gate s now ns h1]
      exact ⟨hchain, hlast⟩
    · by_cases h2 : chordNameOf ns = ""
      · have hs1 : detectChordStep s now ns = s := by
          unfold detectChordStep
          rw [if_neg h1]
          simp [h2]
        rw [hs1]
        exact ⟨hchain, hlast⟩
      · have h500 : s.lastChordTime + 500 ≤ now := by omega
        have hle : ∀ e ∈ s.detectedChords.getLast?,
            e.timestamp ≤ s.lastChordTime := by
          intro e he
          rw [Option.mem_def] at he
          unfold lastEmitOk at hlast
          rw [he] at hlast
          simpa using hlast
        have h2' : chordNameOf ns ≠ "" := h2
        unfold detectChordStep
        rw [if_neg h1, if_pos h2']
        split
        · constructor
          · rw [List.chain'_append]
            refine ⟨hchain, List.chain'_singleton _, ?_⟩
            intro x hx y hy
            simp at hy
            subst hy
            have := hle x hx
            simp only []
            omega
          · unfold lastEmitOk
            rw [List.getLast?_concat]
            simp
        · constructor
          · exact hchain
          · unfold lastEmitOk
            cases hgl : s.detectedChords.getLast? with
            | none => rfl
            | some x =>
              have hx := hle x (by rw [Option.mem_def, hgl])
              simp only []
              simp
              omega

/-- Witness for the amended C8: from a fresh state, two chord-eligible ticks
100ms apart append at most one event, and the fresh state's invariant is
preserved by a tick. -/
theorem chord_rate_limit_amended_witness :
    ((600 : ℕ) - 500 < 500
     ∧ (detectChordStep (detectChordStep ⟨0, []⟩ 500
          [⟨"C4", 60⟩, ⟨"E4", 64⟩, ⟨"G4", 67⟩]) 600
          [⟨"C4", 60⟩, ⟨"E4", 64⟩, ⟨"G4", 67⟩]).detectedChords.length
        ≤ (⟨0, []⟩ : ChordState).detectedChords.length + 1)
    ∧ (chordInv ⟨0, []⟩
       ∧ chordInv (detectChordStep ⟨0, []⟩ 500
          [⟨"C4", 60⟩, ⟨"E4", 64⟩, ⟨"G4", 67⟩])) :=
  ⟨⟨by decide, chord_rate_limit_amended.1 ⟨0, []⟩ 500 600
      [⟨"C4", 60⟩, ⟨"E4", 64⟩, ⟨"G4", 67⟩]
      [⟨"C4", 60⟩, ⟨"E4", 64⟩, ⟨"G4", 67⟩] (by decide)⟩,
   ⟨⟨List.chain'_nil, rfl⟩, chord_rate_limit_amended.2 ⟨0, []⟩ 500
      [⟨"C4", 60⟩, ⟨"E4", 64⟩, ⟨"G4", 67⟩] ⟨List.chain'_nil, rfl⟩⟩⟩

/-- Claim C9 (code bug): the spec requires non-positive frequencies to be
rejected with an InvalidFrequency condition, as the spec-modelled
`frequencyToNoteChecked` does at 0; the source's `frequencyToNote` has no
such guard and returns a note record for the input 0 (in JavaScript its
derived fields are NaN garbage). -/
theorem noteMapper_missing_invalid_frequency_guard :
    frequencyToNoteChecked 0 = none ∧ (frequencyToNote 0).frequency = 0 := by
  constructor
  · unfold frequencyToNoteChecked
    norm_num
  · rfl

/-- Claim C10: converting a MIDI number in [12, 127] to a note name and
parsing it back is the identity, and below 12 the negative-octave name does
not parse, so `noteToMidi` falls back to 60. -/
theorem midi_name_roundtrip :
    (∀ m : ℤ, 12 ≤ m → m ≤ 127 → noteToMidi (midiToNoteName m) = m)
    ∧ (∀ m : ℤ, 0 ≤ m → m < 12 → noteToMidi (midiToNoteName m) = 60) := by
  have H1 : ∀ k : ℕ, k < 128 → 12 ≤ k →
      noteToMidi (midiToNoteName (k : ℤ)) = (k : ℤ) := by decide
  have H2 : ∀ k : ℕ, k < 12 → noteToMidi (midiToNoteName (k : ℤ)) = 60 := by
    decide
  constructor
  · intro m h1 h2
    have hm : m = ((m.toNat : ℕ) : ℤ) := (Int.toNat_of_nonneg (by omega)).symm
    rw [hm]
    exact H1 m.toNat (by omega) (by omega)
  · intro m h1 h2
    have hm : m = ((m.toNat : ℕ) : ℤ) := (Int.toNat_of_nonneg h1).symm
    rw [hm]
    exact H2 m.toNat (by omega)

/-- Witness for C10: round-tripping A4 (MIDI 69). -/
theorem midi_name_roundtrip_witness :
    (12 ≤ (69 : ℤ) ∧ (69 : ℤ) ≤ 127)
    ∧ noteToMidi (midiToNoteName 69) = 69 :=
  ⟨⟨by decide, by decide⟩, midi_name_roundtrip.1 69 (by decide) (by decide)⟩

end MusicViz
